import Mathlib

/-!
Verification of the keyword trend tracking subsystem of an arXiv
paper-discovery pipeline.  The Lean definitions below are a shallow
embedding of the Python modules

  * `agents/keyword_tracker/database.py`   (SQLite-backed keyword store)
  * `agents/keyword_tracker/normalizer.py` (LLM-based keyword canonicalizer)
  * `agents/keyword_tracker/tracker.py`    (coordinator)
  * `agents/keyword_tracker/mermaid_generator.py` (chart rendering)

The SQLite database is modelled as an explicit record of row lists
(`DBState`); each store operation is a pure state transformer translated
statement-by-statement from the Python/SQL source.  Calendar dates are
modelled as integer day ordinals, Python floats holding confidences as
rationals, and the LLM oracle as an abstract function returning
`Except Unit` (all failure modes of the real call — raised exception,
empty body, malformed JSON, missing/empty `normalizations` — collapse
into the `error` case, exactly the set of conditions that reach the
`except` clause in `normalize_batch`).
-/

namespace ArxivKeywords

/-- Python `s.lower()` (ASCII case folding, character by character). -/
def py_lower (s : String) : String := ⟨s.data.map Char.toLower⟩

/-- Python `s.strip()`: drop whitespace from both ends. -/
def py_strip (s : String) : String :=
  ⟨((s.data.dropWhile Char.isWhitespace).reverse.dropWhile Char.isWhitespace).reverse⟩

/-- Python `s.strip().lower()` as used throughout `database.py`. -/
def py_norm (s : String) : String := py_lower (py_strip s)

/-! ## Chart generator (`mermaid_generator.py`) -/

/-- `MermaidGenerator._truncate_keyword`. -/
def truncate_keyword (kw : String) (max_len : Nat) : String :=
  if kw.length ≤ max_len then kw else kw.take (max_len - 2) ++ ".."

/-- `MermaidGenerator._round_up`: round a count up to a "nice" axis bound. -/
def round_up (value : Nat) : Nat :=
  if value ≤ 10 then 10
  else if value ≤ 20 then 20
  else if value ≤ 50 then 50
  else if value ≤ 100 then 100
  else (value / 50 + 1) * 50

/-- Python `max(counts) if counts else 10` (from both chart builders). -/
def max_count_of (counts : List Nat) : Nat :=
  match counts with
  | [] => 10
  | c :: rest => rest.foldl Nat.max c

/-- `MermaidGenerator.generate_bar_chart`, translated line by line;
returns the empty string exactly when `data` is empty. -/
def generate_bar_chart (data : List (String × Nat)) (title y_label : String) : String :=
  if data.isEmpty then ""
  else
    let keywords := data.map (fun p => truncate_keyword p.1 20)
    let counts := data.map (fun p => p.2)
    let y_max := round_up (max_count_of counts)
    let x_axis := String.intercalate ", " (keywords.map (fun k => "\"" ++ k ++ "\""))
    let bar_data := String.intercalate ", " (counts.map toString)
    "```mermaid\nxychart-beta\n    title \"" ++ title ++ "\"\n    x-axis [" ++ x_axis
      ++ "]\n    y-axis \"" ++ y_label ++ "\" 0 --> " ++ toString y_max
      ++ "\n    bar [" ++ bar_data ++ "]\n```"

/-- `MermaidGenerator._date_range`: the list of days from `s` to `e` inclusive. -/
def date_range (s e : Int) : List Int :=
  if s ≤ e then s :: date_range (s + 1) e else []
termination_by (e + 1 - s).toNat
decreasing_by simp_wf; omega

/-- Loop body of `MermaidGenerator._generate_date_ranges`; `fuel` bounds the
iteration count (the caller passes the size of the window, which suffices
whenever `aggregate_days ≥ 1`, the only case in which the Python loop
terminates at all). -/
def generate_date_ranges_aux (fuel : Nat) (current e_ agg : Int) : List (Int × Int) :=
  match fuel with
  | 0 => []
  | f + 1 =>
    if current ≤ e_ then
      (current, min (current + agg - 1) e_) ::
        generate_date_ranges_aux f (min (current + agg - 1) e_ + 1) e_ agg
    else []

/-- `MermaidGenerator._generate_date_ranges`. -/
def generate_date_ranges (s e agg : Int) : List (Int × Int) :=
  generate_date_ranges_aux (e + 1 - s).toNat s e agg

/-- Python `trend.daily_counts.get(d, 0)` with the dict modelled as an
association list: a day absent from the map contributes 0. -/
def lookup_count (counts : List (Int × Nat)) (d : Int) : Nat :=
  match counts.find? (fun p => p.1 == d) with
  | some p => p.2
  | none => 0

/-- One bucket value in `MermaidGenerator.generate_line_chart`: the sum of
the per-day counts over the bucket's days. -/
def bucket_value (counts : List (Int × Nat)) (a b : Int) : Nat :=
  ((date_range a b).map (lookup_count counts)).sum

/-- Per-keyword trend record (`KeywordTrendData`). -/
structure TrendData where
  keyword : String
  daily_counts : List (Int × Nat)
deriving Repr, DecidableEq

/-- The numeric payload of `MermaidGenerator.generate_line_chart`: for each
series, the aggregated value of every bucket of the lookback window
(`start = today - days`, buckets of `aggregate_days` length). -/
def line_chart_values (trends : List TrendData) (today days agg : Int) : List (List Nat) :=
  let ranges := generate_date_ranges (today - days) today agg
  trends.map (fun t => ranges.map (fun p => bucket_value t.daily_counts p.1 p.2))

/-! ## Keyword store (`database.py`) -/

/-- A row of the `keywords` table (a raw keyword observation). -/
structure KwRow where
  id : Nat
  keyword : String
  paper_id : String
  source : String
  extracted_date : Int
  normalized_keyword_id : Option Nat
deriving Repr, DecidableEq

/-- A row of the `normalized_keywords` table (a canonical keyword). -/
structure NkRow where
  id : Nat
  canonical_keyword : String
  category : Option String
deriving Repr, DecidableEq

/-- A row of the `keyword_aliases` table (`raw_keyword` is UNIQUE). -/
structure AliasRow where
  raw_keyword : String
  normalized_keyword_id : Nat
  confidence : ℚ
deriving Repr, DecidableEq

/-- A row of the `keyword_daily_counts` table. -/
structure DCRow where
  normalized_keyword_id : Nat
  count_date : Int
  paper_count : Nat
deriving Repr, DecidableEq

/-- The whole SQLite database, as explicit row lists plus the AUTOINCREMENT
counters of the two tables whose generated ids the code observes. -/
structure DBState where
  keywords : List KwRow
  normalized_keywords : List NkRow
  keyword_aliases : List AliasRow
  daily_counts : List DCRow
  next_keyword_id : Nat
  next_normalized_id : Nat
deriving Repr, DecidableEq

/-- `KeywordDatabase._find_normalized_id_by_alias`: look the raw text up in
the alias table (UNIQUE on `raw_keyword`, so at most one row matches). -/
def find_normalized_id_by_alias (st : DBState) (raw : String) : Option Nat :=
  (st.keyword_aliases.find? (fun a => a.raw_keyword == raw)).map
    (fun a => a.normalized_keyword_id)

/-- One iteration of the loop in `KeywordDatabase.insert_keywords`:
lowercase+trim, skip if empty, auto-link through the alias table, then
`INSERT OR IGNORE` under the `(keyword, paper_id)` UNIQUE constraint
(`cursor.lastrowid` is only truthy when a row was actually inserted). -/
def insert_one (pid src : String) (d : Int) (acc : DBState × List Nat) (kw : String) :
    DBState × List Nat :=
  let st := acc.1
  let kl := py_norm kw
  if kl = "" then acc
  else if st.keywords.any (fun r => r.keyword == kl && r.paper_id == pid) then acc
  else
    ({ st with
        keywords := st.keywords ++
          [⟨st.next_keyword_id, kl, pid, src, d, find_normalized_id_by_alias st kl⟩],
        next_keyword_id := st.next_keyword_id + 1 },
      acc.2 ++ [st.next_keyword_id])

/-- `KeywordDatabase.insert_keywords`: returns the updated state and the list
of ids of newly inserted rows. -/
def insert_keywords (st : DBState) (kws : List String) (pid src : String) (d : Int) :
    DBState × List Nat :=
  kws.foldl (insert_one pid src d) (st, [])

/-- `KeywordDatabase.get_or_create_normalized_keyword`. -/
def get_or_create_normalized_keyword (st : DBState) (canonical : String)
    (category : Option String) : Nat × DBState :=
  let cl := py_norm canonical
  match st.normalized_keywords.find? (fun nk => nk.canonical_keyword == cl) with
  | some nk => (nk.id, st)
  | none =>
    (st.next_normalized_id,
      { st with
          normalized_keywords :=
            st.normalized_keywords ++ [⟨st.next_normalized_id, cl, category⟩],
          next_normalized_id := st.next_normalized_id + 1 })

/-- `KeywordDatabase.add_keyword_alias`: `INSERT OR REPLACE` keyed on
`raw_keyword` (the conflicting row is deleted, the new row appended). -/
def add_keyword_alias (st : DBState) (raw : String) (nid : Nat) (conf : ℚ) : DBState :=
  let rl := py_norm raw
  { st with
      keyword_aliases :=
        st.keyword_aliases.filter (fun a => a.raw_keyword != rl) ++ [⟨rl, nid, conf⟩] }

/-- `KeywordDatabase.link_keywords_to_normalized`: set `normalized_keyword_id`
on every observation row matching the raw text that is still unlinked, and
return the number of rows changed (`cursor.rowcount`). -/
def link_keywords_to_normalized (st : DBState) (raw : String) (nid : Nat) :
    DBState × Nat :=
  let rl := py_norm raw
  ({ st with
      keywords := st.keywords.map (fun r =>
        if r.keyword == rl && r.normalized_keyword_id.isNone then
          { r with normalized_keyword_id := some nid }
        else r) },
    st.keywords.countP (fun r => r.keyword == rl && r.normalized_keyword_id.isNone))

/-- The `INSERT ... SELECT` of `KeywordDatabase.update_daily_counts`: group
the linked observations with `extracted_date = d` by canonical keyword and
count distinct `paper_id`. -/
def daily_counts_for (kws : List KwRow) (d : Int) : List DCRow :=
  let linked := kws.filter (fun r => r.normalized_keyword_id.isSome && r.extracted_date == d)
  ((linked.filterMap (fun r => r.normalized_keyword_id)).dedup).map (fun n =>
    ⟨n, d, ((linked.filter (fun r => r.normalized_keyword_id == some n)).map
      (fun r => r.paper_id)).dedup.length⟩)

/-- `KeywordDatabase.update_daily_counts`: delete all `keyword_daily_counts`
rows for the date, then recreate them from the `keywords` table. -/
def update_daily_counts (st : DBState) (d : Int) : DBState :=
  { st with
      daily_counts :=
        st.daily_counts.filter (fun c => c.count_date != d) ++ daily_counts_for st.keywords d }

/-- `KeywordDatabase.get_top_keywords`: sum `paper_count` over the window
`count_date >= today - days` grouped by canonical keyword (`GROUP BY nk.id`
enumerates the groups in id order, i.e. table order here), sort descending
by the summed count with a stable sort, and cap at `limit`. -/
def get_top_keywords (st : DBState) (days : Int) (limit : Nat) (today : Int) :
    List (String × Nat × Option String) :=
  let start := today - days
  let window := st.daily_counts.filter (fun c => decide (start ≤ c.count_date))
  let groups := st.normalized_keywords.filterMap (fun nk =>
    let rows := window.filter (fun c => c.normalized_keyword_id == nk.id)
    if rows.isEmpty then none
    else some (nk.canonical_keyword, (rows.map (fun c => c.paper_count)).sum, nk.category))
  (groups.mergeSort (fun a b => decide (b.2.1 ≤ a.2.1))).take limit

/-- The per-keyword query loop of `KeywordDatabase.get_keyword_trends`: for
each requested keyword, the daily-count rows joined to that canonical
keyword in the window, ordered by date; a keyword with no rows yields no
trend record at all. -/
def get_keyword_trends_for (st : DBState) (kw_list : List String) (start : Int) :
    List TrendData :=
  (kw_list.map (fun kw =>
    let rows := (st.daily_counts.filter (fun c =>
      decide (start ≤ c.count_date) &&
        st.normalized_keywords.any (fun nk =>
          nk.id == c.normalized_keyword_id && nk.canonical_keyword == kw))).mergeSort
      (fun a b => decide (a.count_date ≤ b.count_date))
    TrendData.mk kw (rows.map (fun c => (c.count_date, c.paper_count))))).filter
    (fun t => !t.daily_counts.isEmpty)

/-- `KeywordDatabase.get_keyword_trends`: when the `keywords` argument is
absent (or the empty list, which Python's truthiness test treats the same
way), the keyword set is the top-`limit` ranking over the same window;
otherwise the given keywords, lowercased. -/
def get_keyword_trends (st : DBState) (days : Int) (keywords : Option (List String))
    (limit : Nat) (today : Int) : List TrendData :=
  let kw_list :=
    match keywords with
    | some ks =>
      if ks.isEmpty then (get_top_keywords st days limit today).map (fun x => x.1)
      else ks.map (fun k => py_lower k)
    | none => (get_top_keywords st days limit today).map (fun x => x.1)
  get_keyword_trends_for st kw_list (today - days)

/-! ## Canonicalizer (`normalizer.py`) -/

/-- `NormalizationResult` (the pydantic model). -/
structure NormalizationResult where
  canonical_form : String
  original_keywords : List String
  category : Option String
  confidence : ℚ
deriving Repr, DecidableEq

/-- One entry of the oracle's parsed `normalizations` array. -/
structure OracleEntry where
  canonical_form : String
  original_keywords : List String
  category : Option String
  confidence : ℚ
deriving Repr, DecidableEq

/-- The external LLM oracle, abstracted over the batch and the existing
canonical vocabulary.  `error` stands for every condition that raises inside
`_normalize_single_batch` before the `normalizations` list is in hand: a
failed API call, an empty response body, or malformed JSON. -/
def Oracle : Type := List String → Option (List String) → Except Unit (List OracleEntry)

/-- `KeywordNormalizer._normalize_single_batch`: propagate oracle failure,
treat an empty `normalizations` list as failure too (the code raises
`ValueError`), and lowercase canonical forms and original keywords on the
way out. -/
def normalize_single_batch (oracle : Oracle) (batch : List String)
    (existing : Option (List String)) : Except Unit (List NormalizationResult) :=
  match oracle batch existing with
  | Except.error e => Except.error e
  | Except.ok entries =>
    if entries.isEmpty then Except.error ()
    else Except.ok (entries.map (fun en =>
      ⟨py_lower en.canonical_form, en.original_keywords.map (fun k => py_lower k),
        en.category, en.confidence⟩))

/-- The identity fallback built in the `except` clause of
`KeywordNormalizer.normalize_batch`: the keyword becomes its own canonical
form with confidence 0.5. -/
def fallback_result (kw : String) : NormalizationResult :=
  ⟨kw, [kw], none, mkRat 1 2⟩

/-- Python's `keywords[i:i+batch_size]` chunking loop: split a list into
consecutive chunks of at most `bs` elements (for `bs = 0` the Python
`range` call raises, so the claims assume `0 < bs`). -/
def chunk_list (bs : Nat) : List α → List (List α)
  | [] => []
  | x :: xs =>
    if h : bs = 0 then []
    else (x :: xs).take bs :: chunk_list bs ((x :: xs).drop bs)
termination_by l => l.length
decreasing_by simp_wf; omega

/-- `KeywordNormalizer.normalize_batch`: process each chunk, replacing a
failed chunk by the per-keyword identity fallback; never raises. -/
def normalize_batch (oracle : Oracle) (kws : List String)
    (existing : Option (List String)) (bs : Nat) : List NormalizationResult :=
  if kws.isEmpty then []
  else (chunk_list bs kws).flatMap (fun batch =>
    match normalize_single_batch oracle batch existing with
    | Except.ok rs => rs
    | Except.error _ => batch.map fallback_result)

/-! ## Tracker (`tracker.py`) -/

/-- The stats dictionary of `KeywordTracker.run_daily_normalization`. -/
structure NormStats where
  processed : Nat
  new_canonical : Nat
  merged : Nat
deriving Repr, DecidableEq

/-- The inner loop over `result.original_keywords` in
`run_daily_normalization`: upsert the alias, back-link existing
observations, and accumulate the `merged` counter. -/
def apply_alias_links (nid : Nat) (conf : ℚ) (origs : List String)
    (st : DBState) (merged : Nat) : DBState × Nat :=
  origs.foldl (fun acc raw =>
    ((link_keywords_to_normalized (add_keyword_alias acc.1 raw nid conf) raw nid).1,
      acc.2 + (link_keywords_to_normalized (add_keyword_alias acc.1 raw nid conf) raw nid).2))
    (st, merged)

/-- One iteration of the result loop in `run_daily_normalization`: a result
with confidence below 0.5 is skipped outright (`continue`); otherwise the
canonical keyword is fetched or created, `new_canonical` is bumped when the
canonical form was not in the vocabulary snapshot, and every original
keyword gets its alias upserted and its observations back-linked. -/
def process_result (existing : List String) (acc : DBState × NormStats)
    (r : NormalizationResult) : DBState × NormStats :=
  if r.confidence < mkRat 1 2 then acc
  else
    let pair := get_or_create_normalized_keyword acc.1 r.canonical_form r.category
    let new_c :=
      if (existing.map (fun c => py_lower c)).contains (py_lower r.canonical_form) then
        acc.2.new_canonical
      else acc.2.new_canonical + 1
    let linked := apply_alias_links pair.1 r.confidence r.original_keywords pair.2 acc.2.merged
    (linked.1, ⟨acc.2.processed + r.original_keywords.length, new_c, linked.2⟩)

/-- The result-processing loop of `KeywordTracker.run_daily_normalization`. -/
def process_results (existing : List String) (results : List NormalizationResult)
    (st : DBState) (stats : NormStats) : DBState × NormStats :=
  results.foldl (process_result existing) (st, stats)

/-- `KeywordDatabase.get_unique_unnormalized_keywords`: distinct raw texts
with no `normalized_keyword_id` and no alias row, capped at `limit`. -/
def get_unique_unnormalized_keywords (st : DBState) (limit : Nat) : List String :=
  (((st.keywords.filter (fun r =>
      r.normalized_keyword_id.isNone &&
        !(st.keyword_aliases.any (fun a => a.raw_keyword == r.keyword)))).map
    (fun r => r.keyword)).dedup).take limit

/-- `KeywordDatabase.get_all_canonical_keywords` (ordered by text). -/
def get_all_canonical_keywords (st : DBState) : List String :=
  (st.normalized_keywords.map (fun nk => nk.canonical_keyword)).mergeSort
    (fun a b => decide (a ≤ b))

/-- `KeywordTracker.run_daily_normalization` (the happy path of the outer
`try`): select unnormalized keywords, canonicalize them through the oracle,
process each sufficiently confident result, then recompute today's daily
counts. -/
def run_daily_normalization (oracle : Oracle) (st : DBState) (today : Int) (bs : Nat) :
    DBState × NormStats :=
  let unnormalized := get_unique_unnormalized_keywords st (bs * 2)
  if unnormalized.isEmpty then (st, ⟨0, 0, 0⟩)
  else
    let existing := get_all_canonical_keywords st
    let results := normalize_batch oracle unnormalized (some existing) bs
    let out := process_results existing results st ⟨0, 0, 0⟩
    (update_daily_counts out.1 today, out.2)

/-! ## Theorems -/

/-- Every row produced by the regrouping query of `update_daily_counts`
carries the date being recomputed. -/
lemma daily_counts_for_date (kws : List KwRow) (d : Int) :
    ∀ c ∈ daily_counts_for kws d, c.count_date = d := by
  intro c hc
  simp only [daily_counts_for, List.mem_map] at hc
  obtain ⟨n, _, rfl⟩ := hc
  rfl

/-- Deleting the rows of date `d` removes everything the regrouping query
for `d` just produced. -/
lemma filter_ne_daily_counts_for (kws : List KwRow) (d : Int) :
    (daily_counts_for kws d).filter (fun c => c.count_date != d) = [] := by
  rw [List.filter_eq_nil_iff]
  intro c hc
  have := daily_counts_for_date kws d c hc
  simp [this]

/-- C1: `update_daily_counts(D)` is idempotent — a second run for the same
date leaves the database unchanged; moreover the rows it stores for `D` are
exactly the regrouping of the `keywords` table (`daily_counts_for`), i.e. a
pure function of the keywords table (full replace, not increment), and the
operation never touches the `keywords` table itself. -/
theorem update_daily_counts_idempotent (st : DBState) (d : Int) :
    update_daily_counts (update_daily_counts st d) d = update_daily_counts st d ∧
    (update_daily_counts st d).daily_counts.filter (fun c => c.count_date == d) =
      daily_counts_for st.keywords d ∧
    (update_daily_counts st d).keywords = st.keywords := by
  refine ⟨?_, ?_, rfl⟩
  · have hff : (fun (a : DCRow) => a.count_date != d && a.count_date != d) =
        (fun (a : DCRow) => a.count_date != d) := by
      funext a
      exact Bool.and_self _
    simp only [update_daily_counts, List.filter_append, filter_ne_daily_counts_for,
      List.filter_filter, List.append_nil, hff]
  · simp only [update_daily_counts, List.filter_append]
    have h1 : (st.daily_counts.filter (fun c => c.count_date != d)).filter
        (fun c => c.count_date == d) = [] := by
      rw [List.filter_eq_nil_iff]
      intro c hc
      rcases List.mem_filter.mp hc with ⟨_, hne⟩
      simp only [bne_iff_ne, ne_eq] at hne
      simp [hne]
    have h2 : (daily_counts_for st.keywords d).filter (fun c => c.count_date == d) =
        daily_counts_for st.keywords d := by
      rw [List.filter_eq_self]
      intro c hc
      have := daily_counts_for_date st.keywords d c hc
      simp [this]
    rw [h1, h2, List.nil_append]

/-- C7 counterexample: the bar chart built from the single input count `[0]`
is not empty output — `generate_bar_chart` only returns the empty string for
empty input, and a zero count simply charts as a bar of height 0 under a
y-axis bound of 10. -/
theorem bar_chart_zero_count_chart : generate_bar_chart [("k", 0)] "T" "Y" ≠ "" := by
  decide

/-- C7 (amended): the y-axis upper bound is the maximum input count rounded
up through the fixed ladder (≤10→10, ≤20→20, ≤50→50, ≤100→100, otherwise
the next multiple of 50), so the input counts [45, 12, 3] yield an upper
bound of 50; empty input produces no chart output (an empty result, not an
error), while the input counts [0] produce a chart with y-axis bound 10. -/
theorem bar_chart_scaling :
    (∀ v : Nat,
      (v ≤ 10 → round_up v = 10) ∧ (10 < v → v ≤ 20 → round_up v = 20) ∧
      (20 < v → v ≤ 50 → round_up v = 50) ∧ (50 < v → v ≤ 100 → round_up v = 100) ∧
      (100 < v → round_up v = (v / 50 + 1) * 50)) ∧
    round_up (max_count_of [45, 12, 3]) = 50 ∧
    (∀ title y_label : String, generate_bar_chart [] title y_label = "") ∧
    generate_bar_chart [("k", 0)] "T" "Y" =
      "```mermaid\nxychart-beta\n    title \"T\"\n    x-axis [\"k\"]\n    y-axis \"Y\" 0 --> 10\n    bar [0]\n```" := by
  refine ⟨?_, by decide, fun _ _ => rfl, rfl⟩
  intro v
  refine ⟨?_, ?_, ?_, ?_, ?_⟩ <;> (intros; simp only [round_up]; split_ifs <;> omega)

/-- C7 witness: the ladder rounds the concrete maximum 45 up to 50. -/
theorem bar_chart_scaling_witness : 20 < 45 ∧ 45 ≤ 50 ∧ round_up 45 = 50 :=
  ⟨by decide, by decide, (bar_chart_scaling.1 45).2.2.1 (by decide) (by decide)⟩

/-- Unfolding equation for `date_range`. -/
lemma date_range_eq (s e : Int) :
    date_range s e = if s ≤ e then s :: date_range (s + 1) e else [] := by
  conv_lhs => rw [date_range]

/-- Splitting an inclusive day range at an interior point. -/
lemma date_range_split (s m e : Int) (h1 : s ≤ m + 1) (h2 : m ≤ e) :
    date_range s e = date_range s m ++ date_range (m + 1) e := by
  by_cases h : s ≤ m
  · have he : s ≤ e := le_trans h h2
    rw [date_range_eq s e, if_pos he, date_range_eq s m, if_pos h]
    rw [List.cons_append]
    rw [date_range_split (s + 1) m e (by omega) h2]
  · have hs : s = m + 1 := by omega
    rw [date_range_eq s m, if_neg h, List.nil_append, hs]
termination_by (m + 1 - s).toNat
decreasing_by simp_wf; omega

/-- Behaviour of the `_generate_date_ranges` loop under sufficient fuel:
the produced buckets exactly tile the inclusive day range, and every bucket
spans `agg` days except possibly the final one, which ends at the window
end. -/
lemma generate_date_ranges_aux_spec (agg : Int) (hagg : 1 ≤ agg) :
    ∀ (fuel : Nat) (c e : Int), (e + 1 - c).toNat ≤ fuel →
      ((generate_date_ranges_aux fuel c e agg).flatMap
        (fun p => date_range p.1 p.2) = date_range c e) ∧
      ∀ p ∈ generate_date_ranges_aux fuel c e agg,
        p.2 - p.1 + 1 ≤ agg ∧ (p.2 - p.1 + 1 = agg ∨ p.2 = e) := by
  intro fuel
  induction fuel with
  | zero =>
    intro c e hf
    have : ¬ c ≤ e := by omega
    constructor
    · simp only [generate_date_ranges_aux, List.flatMap_nil]
      rw [date_range_eq, if_neg this]
    · intro p hp
      simp [generate_date_ranges_aux] at hp
  | succ f ih =>
    intro c e hf
    by_cases hce : c ≤ e
    · have hre1 : c ≤ min (c + agg - 1) e := by
        rcases le_total (c + agg - 1) e with h | h
        · rw [min_eq_left h]; omega
        · rw [min_eq_right h]; omega
      have hre2 : min (c + agg - 1) e ≤ e := min_le_right _ _
      have hih := ih (min (c + agg - 1) e + 1) e (by omega)
      constructor
      · simp only [generate_date_ranges_aux, if_pos hce, List.flatMap_cons]
        rw [hih.1]
        exact (date_range_split c (min (c + agg - 1) e) e (by omega) hre2).symm
      · intro p hp
        simp only [generate_date_ranges_aux, if_pos hce, List.mem_cons] at hp
        rcases hp with rfl | hp
        · constructor
          · have : min (c + agg - 1) e ≤ c + agg - 1 := min_le_left _ _
            simp only []
            omega
          · rcases le_total (c + agg - 1) e with h | h
            · left; rw [min_eq_left h]; ring
            · right; rw [min_eq_right h]
        · exact hih.2 p hp
    · constructor
      · simp only [generate_date_ranges_aux, if_neg hce, List.flatMap_nil]
        rw [date_range_eq, if_neg hce]
      · intro p hp
        simp [generate_date_ranges_aux, hce] at hp

/-- C6 counterexample: calling the line-chart bucketing with a lookback of
`days = 14` and `aggregate_days = 7` (window `today - 14 .. today`, here
with `today = 100`) produces 3 buckets, not 2 — the inclusive window spans
15 calendar days, so a third one-day bucket is emitted. -/
theorem line_chart_14day_bucket_count :
    (generate_date_ranges (100 - 14) 100 7).length ≠ 2 := by
  decide

/-- C6 (amended): the line chart partitions the inclusive lookback window
`today - days .. today` into consecutive, non-overlapping buckets of
`aggregate_days` length each, the last possibly shorter to fit the window
exactly; since the window spans `days + 1` calendar days, a `days = 14`
lookback with `aggregate_days = 7` produces exactly 3 buckets (7 + 7 + 1
days), and for each series and bucket the value is the sum of per-day
counts over the bucket's days with missing days contributing 0. -/
theorem line_chart_bucketing (s e agg : Int) (hagg : 1 ≤ agg) :
    ((generate_date_ranges s e agg).flatMap (fun p => date_range p.1 p.2) =
      date_range s e) ∧
    (∀ p ∈ generate_date_ranges s e agg,
      p.2 - p.1 + 1 ≤ agg ∧ (p.2 - p.1 + 1 = agg ∨ p.2 = e)) ∧
    (generate_date_ranges (100 - 14) 100 7).length = 3 ∧
    (∀ (counts : List (Int × Nat)) (d : Int),
      counts.find? (fun p => p.1 == d) = none → lookup_count counts d = 0) := by
  have h := generate_date_ranges_aux_spec agg hagg (e + 1 - s).toNat s e (le_refl _)
  exact ⟨h.1, h.2, by decide, fun counts d hd => by simp [lookup_count, hd]⟩

/-- C6 witness: the bucketing facts at the concrete window 0..14 with
7-day buckets, and a concrete missing day contributing 0. -/
theorem line_chart_bucketing_witness :
    ((generate_date_ranges 0 14 7).flatMap (fun p => date_range p.1 p.2) =
      date_range 0 14) ∧
    lookup_count [(3, 5)] 4 = 0 :=
  ⟨(line_chart_bucketing 0 14 7 (by decide)).1,
    (line_chart_bucketing 0 14 7 (by decide)).2.2.2 [(3, 5)] 4 (by decide)⟩

/-- The chunking loop does nothing on an empty list. -/
lemma chunk_list_nil {α : Type} (bs : Nat) : chunk_list bs ([] : List α) = [] := by
  rw [chunk_list]

/-- A list that fits inside one chunk is chunked as a single batch. -/
lemma chunk_list_single {α : Type} (bs : Nat) (l : List α) (hbs : 0 < bs)
    (hne : l ≠ []) (hlen : l.length ≤ bs) : chunk_list bs l = [l] := by
  match l with
  | [] => exact absurd rfl hne
  | x :: xs =>
    rw [chunk_list]
    rw [dif_neg (by omega)]
    rw [List.take_of_length_le hlen, List.drop_eq_nil_of_le hlen, chunk_list_nil]

/-- A concrete always-failing oracle (e.g. the API call raises or the
response body is empty on every batch). -/
def failing_oracle : Oracle := fun _ _ => Except.error ()

/-- C4: if the oracle call for a (non-empty, single-chunk) batch of `n`
keywords fails or yields an empty/malformed `normalizations` structure,
`normalize_batch` returns exactly `n` results, one per input keyword, each
being the keyword's own identity mapping with `original_keywords = [kw]`
and confidence exactly 0.5.  (`normalize_batch` is a total function of the
oracle outcome, so no exception can escape it.) -/
theorem normalize_batch_fallback (oracle : Oracle) (existing : Option (List String))
    (bs : Nat) (batch : List String) (hbs : 0 < bs) (hne : batch ≠ [])
    (hlen : batch.length ≤ bs)
    (hfail : oracle batch existing = Except.error () ∨
      oracle batch existing = Except.ok []) :
    normalize_batch oracle batch existing bs = batch.map fallback_result ∧
    (normalize_batch oracle batch existing bs).length = batch.length ∧
    ∀ r ∈ normalize_batch oracle batch existing bs,
      ∃ kw ∈ batch, r = ⟨kw, [kw], none, mkRat 1 2⟩ := by
  have hmain : normalize_batch oracle batch existing bs = batch.map fallback_result := by
    have hempty : batch.isEmpty = false := by
      cases batch with
      | nil => exact absurd rfl hne
      | cons x xs => rfl
    rw [normalize_batch, hempty]
    simp only [Bool.false_eq_true, if_false]
    rw [chunk_list_single bs batch hbs hne hlen]
    rw [List.flatMap_cons, List.flatMap_nil, List.append_nil]
    rcases hfail with hf | hf
    · rw [normalize_single_batch, hf]
    · rw [normalize_single_batch, hf]
      rfl
  refine ⟨hmain, ?_, ?_⟩
  · rw [hmain, List.length_map]
  · intro r hr
    rw [hmain] at hr
    rcases List.mem_map.mp hr with ⟨kw, hkw, rfl⟩
    exact ⟨kw, hkw, rfl⟩

/-- C4 witness: a failing oracle on the concrete batch ["a", "b", "c"]
yields exactly the three identity results with confidence 0.5. -/
theorem normalize_batch_fallback_witness :
    normalize_batch failing_oracle ["a", "b", "c"] none 50 =
      [⟨"a", ["a"], none, mkRat 1 2⟩, ⟨"b", ["b"], none, mkRat 1 2⟩,
        ⟨"c", ["c"], none, mkRat 1 2⟩] :=
  (normalize_batch_fallback failing_oracle none 50 ["a", "b", "c"]
    (by decide) (by decide) (by decide) (Or.inl rfl)).1

/-- Folding the result loop over a result list is the same as folding it
over the list with the sub-0.5-confidence results removed. -/
lemma foldl_process_filter (existing : List String) :
    ∀ (results : List NormalizationResult) (acc : DBState × NormStats),
      List.foldl (process_result existing) acc results =
        List.foldl (process_result existing) acc
          (results.filter (fun r => !decide (r.confidence < mkRat 1 2))) := by
  intro results
  induction results with
  | nil => intro acc; rfl
  | cons r rs ih =>
    intro acc
    rw [List.filter_cons]
    by_cases hc : r.confidence < mkRat 1 2
    · have hcond : (!decide (r.confidence < mkRat 1 2)) = false := by simp [hc]
      rw [hcond, if_neg (by simp)]
      have hstep : process_result existing acc r = acc := by
        rw [process_result, if_pos hc]
      rw [List.foldl_cons, hstep]
      exact ih acc
    · have hcond : (!decide (r.confidence < mkRat 1 2)) = true := by simp [hc]
      rw [hcond, if_pos rfl, List.foldl_cons, List.foldl_cons]
      exact ih (process_result existing acc r)

/-- C5: the result-processing loop of `run_daily_normalization` behaves as
if every result with confidence strictly below 0.5 had been deleted from
its input — such a result is skipped entirely (no canonical keyword row,
no alias row, no observation link, no stats change), while results with
confidence 0.5 or above are committed by `process_result`. -/
theorem low_confidence_results_skipped (existing : List String)
    (results : List NormalizationResult) (st : DBState) (stats : NormStats) :
    process_results existing results st stats =
      process_results existing
        (results.filter (fun r => !decide (r.confidence < mkRat 1 2))) st stats ∧
    ∀ (acc : DBState × NormStats) (r : NormalizationResult),
      r.confidence < mkRat 1 2 → process_result existing acc r = acc := by
  constructor
  · exact foldl_process_filter existing results (st, stats)
  · intro acc r hc
    rw [process_result, if_pos hc]

/-- C5 witness: a concrete result with confidence 0.3 is skipped by the
processing step, leaving the database state and the stats unchanged. -/
theorem low_confidence_results_skipped_witness :
    process_result [] (⟨[], [], [], [], 1, 1⟩, ⟨0, 0, 0⟩)
      ⟨"x", ["x"], none, mkRat 3 10⟩ = (⟨[], [], [], [], 1, 1⟩, ⟨0, 0, 0⟩) :=
  (low_confidence_results_skipped [] [] ⟨[], [], [], [], 1, 1⟩ ⟨0, 0, 0⟩).2
    (⟨[], [], [], [], 1, 1⟩, ⟨0, 0, 0⟩) ⟨"x", ["x"], none, mkRat 3 10⟩ (by decide)

/-- Inserting a single keyword is one pass of the per-keyword loop body. -/
lemma insert_keywords_singleton (st : DBState) (k pid src : String) (d : Int) :
    insert_keywords st [k] pid src d = insert_one pid src d (st, []) k := rfl

/-- The duplicate test of `insert_one` succeeds exactly when the
`(keyword, paper_id)` pair is already stored. -/
lemma insert_dup_test (st : DBState) (kl pid : String) :
    st.keywords.any (fun r => r.keyword == kl && r.paper_id == pid) = true ↔
      ∃ r ∈ st.keywords, r.keyword = kl ∧ r.paper_id = pid := by
  rw [List.any_eq_true]
  constructor
  · rintro ⟨r, hr, hp⟩
    rw [Bool.and_eq_true, beq_iff_eq, beq_iff_eq] at hp
    exact ⟨r, hr, hp⟩
  · rintro ⟨r, hr, h1, h2⟩
    exact ⟨r, hr, by rw [Bool.and_eq_true, beq_iff_eq, beq_iff_eq]; exact ⟨h1, h2⟩⟩

/-- Inserting a `(keyword, paper_id)` pair that is already stored leaves the
database unchanged and reports no new id (the `INSERT OR IGNORE` path). -/
lemma insert_existing_noop (st : DBState) (k pid src : String) (d : Int)
    (hex : ∃ r ∈ st.keywords, r.keyword = py_norm k ∧ r.paper_id = pid) :
    insert_keywords st [k] pid src d = (st, []) := by
  rw [insert_keywords_singleton, insert_one]
  by_cases hkl : py_norm k = ""
  · rw [if_pos hkl]
  · rw [if_neg hkl, if_pos ((insert_dup_test st (py_norm k) pid).mpr hex)]

/-- C2: `insert_keywords` lowercases and trims each keyword and skips it if
the result is empty; inserting an already-present `(keyword, paper_id)`
pair is a silent no-op whose id is not reported; and after a fresh insert
exactly one row holds the pair while a second call for the same pair
changes nothing and returns no ids.  (The operation is a total function,
so no error is raised.) -/
theorem insert_keywords_idempotent (st : DBState) (k pid src : String) (d d' : Int) :
    (py_norm k = "" → insert_keywords st [k] pid src d = (st, [])) ∧
    ((∃ r ∈ st.keywords, r.keyword = py_norm k ∧ r.paper_id = pid) →
      insert_keywords st [k] pid src d = (st, [])) ∧
    (py_norm k ≠ "" →
      (∀ r ∈ st.keywords, ¬(r.keyword = py_norm k ∧ r.paper_id = pid)) →
      (insert_keywords st [k] pid src d).1.keywords.countP
          (fun r => r.keyword == py_norm k && r.paper_id == pid) = 1 ∧
        insert_keywords (insert_keywords st [k] pid src d).1 [k] pid src d' =
          ((insert_keywords st [k] pid src d).1, [])) := by
  refine ⟨?_, insert_existing_noop st k pid src d, ?_⟩
  · intro hkl
    rw [insert_keywords_singleton, insert_one, if_pos hkl]
  · intro hkl hno
    have hany : st.keywords.any
        (fun r => r.keyword == py_norm k && r.paper_id == pid) = false := by
      rw [Bool.eq_false_iff]
      intro hc
      rcases (insert_dup_test st (py_norm k) pid).mp hc with ⟨r, hr, h1, h2⟩
      exact hno r hr ⟨h1, h2⟩
    have hst1 : insert_keywords st [k] pid src d =
        ({ st with
            keywords := st.keywords ++
              [⟨st.next_keyword_id, py_norm k, pid, src, d,
                find_normalized_id_by_alias st (py_norm k)⟩],
            next_keyword_id := st.next_keyword_id + 1 }, [st.next_keyword_id]) := by
      rw [insert_keywords_singleton, insert_one, if_neg hkl, hany]
      rfl
    constructor
    · rw [hst1]
      rw [List.countP_append, List.countP_cons, List.countP_nil]
      have h0 : st.keywords.countP
          (fun r => r.keyword == py_norm k && r.paper_id == pid) = 0 := by
        rw [List.countP_eq_zero]
        intro r hr hc
        rw [Bool.and_eq_true, beq_iff_eq, beq_iff_eq] at hc
        exact hno r hr hc
      rw [h0]
      simp
    · rw [hst1]
      apply insert_existing_noop
      exact ⟨⟨st.next_keyword_id, py_norm k, pid, src, d,
        find_normalized_id_by_alias st (py_norm k)⟩, by simp, rfl, rfl⟩

/-- C2 witness: inserting " QC" for paper "p1" into the empty database
stores exactly one row for the lowercased pair, and repeating the call
changes nothing and returns no ids. -/
theorem insert_keywords_idempotent_witness :
    (insert_keywords ⟨[], [], [], [], 1, 1⟩ [" QC"] "p1" "arxiv" 10).1.keywords.countP
        (fun r => r.keyword == py_norm " QC" && r.paper_id == "p1") = 1 ∧
      insert_keywords (insert_keywords ⟨[], [], [], [], 1, 1⟩ [" QC"] "p1" "arxiv" 10).1
          [" QC"] "p1" "arxiv" 11 =
        ((insert_keywords ⟨[], [], [], [], 1, 1⟩ [" QC"] "p1" "arxiv" 10).1, []) :=
  (insert_keywords_idempotent ⟨[], [], [], [], 1, 1⟩ " QC" "p1" "arxiv" 10 11).2.2
    (by decide) (by simp)

/-- In a list whose keys are pairwise distinct, `find?` keyed on a member's
key returns exactly that member (the UNIQUE constraint on
`keyword_aliases.raw_keyword` makes the alias lookup exact). -/
lemma find_alias_of_nodup_mem (l : List AliasRow) (a : AliasRow)
    (hnd : (l.map (fun x => x.raw_keyword)).Nodup) (ha : a ∈ l) :
    l.find? (fun x => x.raw_keyword == a.raw_keyword) = some a := by
  induction l with
  | nil => cases ha
  | cons b l ih =>
    rcases List.mem_cons.mp ha with rfl | ha2
    · rw [List.find?_cons_of_pos]
      exact beq_self_eq_true _
    · rw [List.map_cons, List.nodup_cons] at hnd
      have hbne : b.raw_keyword ≠ a.raw_keyword := by
        intro hcontra
        exact hnd.1 (hcontra ▸ List.mem_map_of_mem (fun x => x.raw_keyword) ha2)
      rw [List.find?_cons_of_neg]
      · exact ih hnd.2 ha2
      · simp [hbne]

/-- C3: an `insert_keywords` call whose lowercased, trimmed keyword equals
the raw text of an existing alias row inserts the new observation with
`normalized_keyword_id` already set to the alias's canonical id — the one
call does the linking, with no normalization pass in between. -/
theorem insert_auto_links_via_alias (st : DBState) (a : AliasRow)
    (k pid src : String) (d : Int)
    (hnd : (st.keyword_aliases.map (fun x => x.raw_keyword)).Nodup)
    (ha : a ∈ st.keyword_aliases)
    (hk : py_norm k = a.raw_keyword)
    (hne : a.raw_keyword ≠ "")
    (hnew : ∀ r ∈ st.keywords, ¬(r.keyword = a.raw_keyword ∧ r.paper_id = pid)) :
    (insert_keywords st [k] pid src d).1.keywords =
      st.keywords ++ [⟨st.next_keyword_id, a.raw_keyword, pid, src, d,
        some a.normalized_keyword_id⟩] ∧
    (insert_keywords st [k] pid src d).2 = [st.next_keyword_id] := by
  have hfind : find_normalized_id_by_alias st (py_norm k) =
      some a.normalized_keyword_id := by
    rw [find_normalized_id_by_alias, hk, find_alias_of_nodup_mem st.keyword_aliases a hnd ha]
    rfl
  have hany : st.keywords.any
      (fun r => r.keyword == py_norm k && r.paper_id == pid) = false := by
    rw [Bool.eq_false_iff]
    intro hc
    rcases (insert_dup_test st (py_norm k) pid).mp hc with ⟨r, hr, h1, h2⟩
    exact hnew r hr ⟨hk ▸ h1, h2⟩
  rw [insert_keywords_singleton, insert_one, if_neg (by rw [hk]; exact hne), hany]
  rw [hfind, hk]
  exact ⟨rfl, rfl⟩

/-- C3 witness: with the alias "qc" → canonical id 7 in place, inserting
"QC " for paper "p1" yields an observation already linked to id 7. -/
theorem insert_auto_links_via_alias_witness :
    (insert_keywords ⟨[], [], [⟨"qc", 7, 1⟩], [], 1, 1⟩ ["QC "] "p1" "arxiv" 10).1.keywords =
      [⟨1, "qc", "p1", "arxiv", 10, some 7⟩] ∧
    (insert_keywords ⟨[], [], [⟨"qc", 7, 1⟩], [], 1, 1⟩ ["QC "] "p1" "arxiv" 10).2 = [1] :=
  (insert_auto_links_via_alias ⟨[], [], [⟨"qc", 7, 1⟩], [], 1, 1⟩ ⟨"qc", 7, 1⟩
    "QC " "p1" "arxiv" 10 (by decide) (by simp) (by decide) (by decide) (by simp))

/-- C8: `get_top_keywords` returns at most `limit` entries, sorted
descending by the summed window count (so tied keywords appear before any
lower-count keyword), and every entry is a canonical keyword whose count is
the sum of its `paper_count` over daily-count rows with
`count_date ≥ today - days`.  The function is pure, so repeated calls on
the same stored state return the identical list — in particular the
relative order of tied keywords (given by the stable sort over the
id-ordered groups) is deterministic and stable. -/
theorem get_top_keywords_ranked (st : DBState) (days : Int) (limit : Nat) (today : Int) :
    (get_top_keywords st days limit today).length ≤ limit ∧
    List.Pairwise (fun a b => b.2.1 ≤ a.2.1) (get_top_keywords st days limit today) ∧
    ∀ x ∈ get_top_keywords st days limit today, ∃ nk ∈ st.normalized_keywords,
      x.1 = nk.canonical_keyword ∧ x.2.2 = nk.category ∧
      x.2.1 = ((st.daily_counts.filter (fun c =>
        c.normalized_keyword_id == nk.id && decide (today - days ≤ c.count_date))).map
        (fun c => c.paper_count)).sum := by
  refine ⟨List.length_take_le _ _, ?_, ?_⟩
  · have hs := @List.sorted_mergeSort (String × Nat × Option String)
      (fun a b => decide (b.2.1 ≤ a.2.1))
      (fun a b c hab hbc => by
        rw [decide_eq_true_eq] at *
        exact le_trans hbc hab)
      (fun a b => by
        rcases Nat.le_total b.2.1 a.2.1 with h | h
        · rw [Bool.or_eq_true]; left; rw [decide_eq_true_eq]; exact h
        · rw [Bool.or_eq_true]; right; rw [decide_eq_true_eq]; exact h)
      (st.normalized_keywords.filterMap (fun nk =>
        let rows := (st.daily_counts.filter
          (fun c => decide (today - days ≤ c.count_date))).filter
          (fun c => c.normalized_keyword_id == nk.id)
        if rows.isEmpty then none
        else some (nk.canonical_keyword, (rows.map (fun c => c.paper_count)).sum,
          nk.category)))
    have hp := hs.imp (fun h => of_decide_eq_true h)
    exact hp.sublist (List.take_sublist _ _)
  · intro x hx
    have hx2 := List.mem_of_mem_take hx
    rw [List.mem_mergeSort] at hx2
    rcases List.mem_filterMap.mp hx2 with ⟨nk, hnk, hfx⟩
    refine ⟨nk, hnk, ?_⟩
    by_cases he : ((st.daily_counts.filter
        (fun c => decide (today - days ≤ c.count_date))).filter
        (fun c => c.normalized_keyword_id == nk.id)).isEmpty
    · rw [if_pos he] at hfx
      cases hfx
    · rw [if_neg he] at hfx
      cases hfx
      refine ⟨rfl, rfl, ?_⟩
      rw [List.filter_filter]

/-- C9: every per-keyword date→count map returned by `get_keyword_trends`
contains only dates on or after `today - days` that have a recorded
daily-count row joined to that keyword's canonical entry; whenever all
stored counts are positive (which `update_daily_counts` guarantees, its
groups being non-empty), no date is ever present with value 0; and when
the `keywords` argument is absent the keyword set is exactly the
top-`limit` ranked names over the same window. -/
theorem get_keyword_trends_spec (st : DBState) (days : Int)
    (keywords : Option (List String)) (limit : Nat) (today : Int) :
    (∀ t ∈ get_keyword_trends st days keywords limit today, ∀ d c,
      (d, c) ∈ t.daily_counts →
      today - days ≤ d ∧ ∃ r ∈ st.daily_counts, r.count_date = d ∧ r.paper_count = c ∧
        ∃ nk ∈ st.normalized_keywords, nk.id = r.normalized_keyword_id ∧
          nk.canonical_keyword = t.keyword) ∧
    ((∀ r ∈ st.daily_counts, 0 < r.paper_count) →
      ∀ t ∈ get_keyword_trends st days keywords limit today, ∀ d,
        (d, 0) ∉ t.daily_counts) ∧
    (get_keyword_trends st days none limit today =
      get_keyword_trends_for st ((get_top_keywords st days limit today).map (fun x => x.1))
        (today - days)) := by
  have hmain : ∀ t ∈ get_keyword_trends st days keywords limit today, ∀ d c,
      (d, c) ∈ t.daily_counts →
      today - days ≤ d ∧ ∃ r ∈ st.daily_counts, r.count_date = d ∧ r.paper_count = c ∧
        ∃ nk ∈ st.normalized_keywords, nk.id = r.normalized_keyword_id ∧
          nk.canonical_keyword = t.keyword := by
    intro t ht d c hdc
    rw [get_keyword_trends.eq_def] at ht
    rcases List.mem_filter.mp ht with ⟨htm, _⟩
    rcases List.mem_map.mp htm with ⟨kw, _, rfl⟩
    simp only [] at hdc
    rcases List.mem_map.mp hdc with ⟨r, hr, hpair⟩
    rw [List.mem_mergeSort] at hr
    rcases List.mem_filter.mp hr with ⟨hrm, hcond⟩
    rw [Bool.and_eq_true, decide_eq_true_eq] at hcond
    rcases hcond with ⟨hdate, hany⟩
    rcases List.any_eq_true.mp hany with ⟨nk, hnkm, hnk⟩
    rw [Bool.and_eq_true, beq_iff_eq, beq_iff_eq] at hnk
    have hd : r.count_date = d := congrArg Prod.fst hpair
    have hc : r.paper_count = c := congrArg Prod.snd hpair
    exact ⟨hd ▸ hdate, r, hrm, hd, hc, nk, hnkm, hnk.1, hnk.2⟩
  refine ⟨hmain, ?_, rfl⟩
  intro hpos t ht d hdc
  rcases hmain t ht d 0 hdc with ⟨_, r, hrm, _, hc, _⟩
  have := hpos r hrm
  omega

/-- C9 witness: in a concrete store whose only daily-count row has a
positive count, no trend map ever carries a zero value. -/
theorem get_keyword_trends_spec_witness :
    (∀ r ∈ ([⟨2, 5, 2⟩] : List DCRow), 0 < r.paper_count) ∧
    ∀ t ∈ get_keyword_trends ⟨[], [⟨2, "alpha", none⟩], [], [⟨2, 5, 2⟩], 1, 3⟩
        30 none 10 6, ∀ d, (d, 0) ∉ t.daily_counts :=
  ⟨by decide,
    (get_keyword_trends_spec ⟨[], [⟨2, "alpha", none⟩], [], [⟨2, 5, 2⟩], 1, 3⟩
      30 none 10 6).2.1 (by decide)⟩

/-- C10: `link_keywords_to_normalized` returns the number of rows it
changes and updates only observation rows that are still unlinked
(`normalized_keyword_id` NULL) with a matching keyword; `add_keyword_alias`
never touches the observations table; hence after an alias is overwritten
to point at a different canonical id, every observation row that was
already linked keeps its old `normalized_keyword_id` — re-normalization
rewrites the alias but never retroactively relinks linked observations. -/
theorem link_only_null_rows (st : DBState) (raw raw2 : String) (nid nid2 old : Nat)
    (conf : ℚ) (i : Nat) :
    ((link_keywords_to_normalized st raw nid).2 =
      st.keywords.countP
        (fun r => r.keyword == py_norm raw && r.normalized_keyword_id.isNone)) ∧
    ((link_keywords_to_normalized st raw nid).1.keywords.length =
      st.keywords.length) ∧
    ((add_keyword_alias st raw2 nid2 conf).keywords = st.keywords) ∧
    (∀ r, st.keywords[i]? = some r → r.normalized_keyword_id = some old →
      (link_keywords_to_normalized st raw nid).1.keywords[i]? = some r) ∧
    (∀ r, st.keywords[i]? = some r → r.keyword ≠ py_norm raw →
      (link_keywords_to_normalized st raw nid).1.keywords[i]? = some r) ∧
    (∀ r, st.keywords[i]? = some r → r.keyword = py_norm raw →
      r.normalized_keyword_id = none →
      (link_keywords_to_normalized st raw nid).1.keywords[i]? =
        some { r with normalized_keyword_id := some nid }) ∧
    (∀ r, st.keywords[i]? = some r → r.normalized_keyword_id = some old →
      (link_keywords_to_normalized (add_keyword_alias st raw2 nid2 conf)
        raw nid).1.keywords[i]? = some r) := by
  have hlink : ∀ (st2 : DBState), ∀ r, st2.keywords[i]? = some r →
      r.normalized_keyword_id = some old →
      (link_keywords_to_normalized st2 raw nid).1.keywords[i]? = some r := by
    intro st2 r hr hold
    show (st2.keywords.map _)[i]? = some r
    rw [List.getElem?_map, hr]
    simp [hold]
  have halias : (add_keyword_alias st raw2 nid2 conf).keywords = st.keywords := rfl
  refine ⟨rfl, List.length_map _ _, halias, hlink st, ?_, ?_, ?_⟩
  · intro r hr hne
    show (st.keywords.map _)[i]? = some r
    rw [List.getElem?_map, hr]
    have hb : (r.keyword == py_norm raw) = false := by
      rw [beq_eq_false_iff_ne]
      exact hne
    simp only [Option.map_some', hb, Bool.false_and, Bool.false_eq_true, if_false]
  · intro r hr hkw hnone
    show (st.keywords.map _)[i]? = some _
    rw [List.getElem?_map, hr]
    have hb : (r.keyword == py_norm raw && r.normalized_keyword_id.isNone) = true := by
      rw [Bool.and_eq_true, beq_iff_eq]
      exact ⟨hkw, by rw [hnone]; rfl⟩
    simp only [Option.map_some', if_pos hb]
  · intro r hr hold
    exact hlink (add_keyword_alias st raw2 nid2 conf) r (halias ▸ hr) hold

/-- C10 witness: in a concrete store with a row already linked to canonical
id 5 and an unlinked row with a different keyword, overwriting the alias to
canonical id 9 and re-running the back-link leaves the linked row's old id
in place, and the back-link leaves the differently-keyworded NULL row
untouched. -/
theorem link_only_null_rows_witness :
    (link_keywords_to_normalized
      (add_keyword_alias
        ⟨[⟨1, "a", "p", "s", 0, some 5⟩, ⟨2, "b", "q", "s", 0, none⟩], [],
          [⟨"a", 5, 1⟩], [], 3, 1⟩ "a" 9 1) "a" 9).1.keywords[0]? =
      some ⟨1, "a", "p", "s", 0, some 5⟩ ∧
    (link_keywords_to_normalized
      ⟨[⟨1, "a", "p", "s", 0, some 5⟩, ⟨2, "b", "q", "s", 0, none⟩], [],
        [⟨"a", 5, 1⟩], [], 3, 1⟩ "a" 9).1.keywords[1]? =
      some ⟨2, "b", "q", "s", 0, none⟩ :=
  ⟨(link_only_null_rows
      ⟨[⟨1, "a", "p", "s", 0, some 5⟩, ⟨2, "b", "q", "s", 0, none⟩], [],
        [⟨"a", 5, 1⟩], [], 3, 1⟩ "a" "a" 9 9 5 1 0).2.2.2.2.2.2
      ⟨1, "a", "p", "s", 0, some 5⟩ rfl rfl,
    (link_only_null_rows
      ⟨[⟨1, "a", "p", "s", 0, some 5⟩, ⟨2, "b", "q", "s", 0, none⟩], [],
        [⟨"a", 5, 1⟩], [], 3, 1⟩ "a" "a" 9 9 5 1 1).2.2.2.2.1
      ⟨2, "b", "q", "s", 0, none⟩ rfl (by decide)⟩

end ArxivKeywords
